import Mathlib

/-!
Verification of the two-party provably-fair dice game (`Task3/game.py`).

The Python source is embedded shallowly: byte strings are `List Nat`
(each entry one byte), Python `int` is `Int` (with `%` as `Int.emod`,
which agrees with Python `%` for positive moduli), the entropy consumed
by `os.urandom` is passed explicitly as arguments, `raise ValueError`
becomes `Except.error`, and the interactive retry loops are modelled by
feeding the already-validated input value (the loops only advance on
valid input).  HMAC-SHA256 (FIPS 180-4 / FIPS 198-1) is implemented in
full over `List Nat` so commitments evaluate concretely.
-/

namespace Task3

/-! ## SHA-256 over byte lists (pure `Nat` arithmetic, FIPS 180-4) -/

/-- Truncation to a 32-bit word. -/
def w32 (n : Nat) : Nat := n % 4294967296

/-- Right rotation of a 32-bit word by `k` bits. -/
def rotr (k x : Nat) : Nat := w32 ((x >>> k) ||| (x <<< (32 - k)))

/-- Bitwise complement of a 32-bit word. -/
def compl32 (x : Nat) : Nat := x ^^^ 4294967295

/-- SHA-256 choice function. -/
def ch (x y z : Nat) : Nat := (x &&& y) ^^^ (compl32 x &&& z)

/-- SHA-256 majority function. -/
def maj (x y z : Nat) : Nat := (x &&& y) ^^^ (x &&& z) ^^^ (y &&& z)

/-- Big sigma 0. -/
def bsig0 (x : Nat) : Nat := rotr 2 x ^^^ rotr 13 x ^^^ rotr 22 x

/-- Big sigma 1. -/
def bsig1 (x : Nat) : Nat := rotr 6 x ^^^ rotr 11 x ^^^ rotr 25 x

/-- Small sigma 0. -/
def ssig0 (x : Nat) : Nat := rotr 7 x ^^^ rotr 18 x ^^^ (x >>> 3)

/-- Small sigma 1. -/
def ssig1 (x : Nat) : Nat := rotr 17 x ^^^ rotr 19 x ^^^ (x >>> 10)

/-- The 64 SHA-256 round constants. -/
def K256 : List Nat :=
  [1116352408, 1899447441, 3049323471, 3921009573, 961987163,
   1508970993, 2453635748, 2870763221, 3624381080, 310598401,
   607225278, 1426881987, 1925078388, 2162078206, 2614888103,
   3248222580, 3835390401, 4022224774, 264347078, 604807628,
   770255983, 1249150122, 1555081692, 1996064986, 2554220882,
   2821834349, 2952996808, 3210313671, 3336571891, 3584528711,
   113926993, 338241895, 666307205, 773529912, 1294757372,
   1396182291, 1695183700, 1986661051, 2177026350, 2456956037,
   2730485921, 2820302411, 3259730800, 3345764771, 3516065817,
   3600352804, 4094571909, 275423344, 430227734, 506948616,
   659060556, 883997877, 958139571, 1322822218, 1537002063,
   1747873779, 1955562222, 2024104815, 2227730452, 2361852424,
   2428436474, 2756734187, 3204031479, 3329325298]

/-- The eight-word SHA-256 working state. -/
structure Hash8 where
  a : Nat
  b : Nat
  c : Nat
  d : Nat
  e : Nat
  f : Nat
  g : Nat
  hh : Nat
deriving Repr, DecidableEq

/-- The SHA-256 initial hash value. -/
def initH : Hash8 :=
  ⟨1779033703, 3144134277, 1013904242, 2773480762,
   1359893119, 2600822924, 528734635, 1541459225⟩

/-- Big-endian byte serialization of `n` into exactly `k` bytes. -/
def beBytes : Nat → Nat → List Nat
  | 0, _ => []
  | k + 1, n => beBytes k (n / 256) ++ [n % 256]

/-- Group a byte list into 32-bit big-endian words (fuel-driven; the fuel
bounds the number of words produced). -/
def toWords : Nat → List Nat → List Nat
  | 0, _ => []
  | _, [] => []
  | fuel + 1, b0 :: b1 :: b2 :: b3 :: rest =>
      (((b0 * 256 + b1) * 256 + b2) * 256 + b3) :: toWords fuel rest
  | _ + 1, _ => []

/-- Message-schedule extension: `acc` holds the words produced so far in
reverse order; each step prepends the next word. -/
def extendW : Nat → List Nat → List Nat
  | 0, acc => acc.reverse
  | n + 1, acc =>
      extendW n
        (w32 (ssig1 (acc.getD 1 0) + acc.getD 6 0 + ssig0 (acc.getD 14 0) + acc.getD 15 0) :: acc)

/-- The 64-entry message schedule of a 16-word block. -/
def schedule (w16 : List Nat) : List Nat := extendW 48 w16.reverse

/-- One SHA-256 round. -/
def roundStep (st : Hash8) (kw : Nat × Nat) : Hash8 :=
  let t1 := w32 (st.hh + bsig1 st.e + ch st.e st.f st.g + kw.1 + kw.2)
  let t2 := w32 (bsig0 st.a + maj st.a st.b st.c)
  ⟨w32 (t1 + t2), st.a, st.b, st.c, w32 (st.d + t1), st.e, st.f, st.g⟩

/-- Compression of one 64-byte block into the running state. -/
def compress (st : Hash8) (block : List Nat) : Hash8 :=
  let r := (K256.zip (schedule (toWords 16 block))).foldl roundStep st
  ⟨w32 (st.a + r.a), w32 (st.b + r.b), w32 (st.c + r.c), w32 (st.d + r.d),
   w32 (st.e + r.e), w32 (st.f + r.f), w32 (st.g + r.g), w32 (st.hh + r.hh)⟩

/-- FIPS 180-4 padding: append `0x80`, zero bytes, then the 64-bit
big-endian bit length, reaching a multiple of 64 bytes. -/
def padMessage (msg : List Nat) : List Nat :=
  let len := msg.length
  let zeros := (56 + 64 - (len + 1) % 64) % 64
  msg ++ 128 :: (List.replicate zeros 0 ++ beBytes 8 (len * 8))

/-- Split into 64-byte blocks (fuel-driven, called with the list length). -/
def chunks64 : Nat → List Nat → List (List Nat)
  | 0, _ => []
  | _, [] => []
  | fuel + 1, l => l.take 64 :: chunks64 fuel (l.drop 64)

/-- The 32 digest bytes of a final state. -/
def stateBytes (st : Hash8) : List Nat :=
  ([st.a, st.b, st.c, st.d, st.e, st.f, st.g, st.hh].map (beBytes 4)).flatten

/-- SHA-256 of a byte list: 32 digest bytes. -/
def sha256 (msg : List Nat) : List Nat :=
  let padded := padMessage msg
  stateBytes ((chunks64 padded.length padded).foldl compress initH)

/-- Zero-pad (or hash, then zero-pad) a key to the 64-byte block size. -/
def hmacKeyBlock (key : List Nat) : List Nat :=
  let k0 := if 64 < key.length then sha256 key else key
  k0 ++ List.replicate (64 - k0.length) 0

/-- HMAC-SHA256 (FIPS 198-1) of `msg` under `key`: 32 digest bytes. -/
def hmacSha256 (key msg : List Nat) : List Nat :=
  let k0 := hmacKeyBlock key
  sha256 ((k0.map (fun b => b ^^^ 92)) ++ sha256 ((k0.map (fun b => b ^^^ 54)) ++ msg))

/-- The sixteen lowercase hexadecimal digits, as produced by Python
`bytes.hex()` and `hashlib` `hexdigest()`. -/
def hexDigitsLower : List Char := "0123456789abcdef".data

/-- The sixteen uppercase hexadecimal digits, as produced by
`bytes.hex().upper()`. -/
def hexDigitsUpper : List Char := "0123456789ABCDEF".data

/-- Lowercase hex character of a nibble. -/
def hexCharLower (n : Nat) : Char := hexDigitsLower.getD n '0'

/-- Uppercase hex character of a nibble. -/
def hexCharUpper (n : Nat) : Char := hexDigitsUpper.getD n '0'

/-- Lowercase hex encoding of a byte list (Python `hexdigest()` and
`bytes.hex()`). -/
def bytesToHexLower (bs : List Nat) : String :=
  ⟨(bs.map (fun b => [hexCharLower (b / 16 % 16), hexCharLower (b % 16)])).flatten⟩

/-- Uppercase hex encoding of a byte list (Python `bytes.hex().upper()`),
as used to display the revealed key. -/
def bytesToHexUpper (bs : List Nat) : String :=
  ⟨(bs.map (fun b => [hexCharUpper (b / 16 % 16), hexCharUpper (b % 16)])).flatten⟩

/-- Hex digest string of HMAC-SHA256, i.e. Python
`hmac.new(key, msg, hashlib.sha256).hexdigest()`. -/
def hmacSha256Hex (key msg : List Nat) : String := bytesToHexLower (hmacSha256 key msg)

/-! ## CryptoProvider and FairNumberGenerator -/

/-- UTF-8 bytes of a string (all strings involved are ASCII), modelling
Python `str.encode()`. -/
def strBytes (s : String) : List Nat := s.data.map Char.toNat

/-- CryptoProvider.generate_uniform_random: raises on a negative
`max_value`, otherwise reduces a fresh 4-byte draw (passed here
explicitly as `draw`, the value of `int.from_bytes(os.urandom(4), 'big')`)
modulo `max_value + 1`. -/
def generate_uniform_random (max_value : Int) (draw : Nat) : Except String Int :=
  if max_value < 0 then Except.error "max_value must be non-negative"
  else Except.ok ((draw : Int) % (max_value + 1))

/-- FairNumberGenerator.generate_fair_number: draws a fresh 16-byte key
(passed explicitly as `key`, the value of `os.urandom(16)`) and a uniform
number from `draw`, and commits with
HMAC-SHA256(key, decimal string of the number). -/
def generate_fair_number (key : List Nat) (draw : Nat) (max_value : Int) :
    Except String (Int × List Nat × String) :=
  (generate_uniform_random max_value draw).map
    (fun number => (number, key, hmacSha256Hex key (strBytes (toString number))))

/-! ## Die -/

/-- A die: the `values` list of integer faces (Python class `Die`; the
constructor copies its input, so the list is owned). -/
structure Die where
  values : List Int
deriving Repr, DecidableEq

/-- Die construction: raises `EmptyDie` on an empty face list. -/
def Die.make (values : List Int) : Except String Die :=
  if values.isEmpty then Except.error "Die must have at least one face"
  else Except.ok ⟨values⟩

/-- A Python runtime value as far as Die equality comparison is concerned:
either a Die or some value of another type. -/
inductive PyValue where
  | die (d : Die)
  | int (n : Int)
  | str (s : String)
  | list (l : List Int)
  | noneV
deriving Repr, DecidableEq

/-- Die.__eq__: `isinstance` check, then structural list equality; a
non-Die argument compares unequal rather than raising. -/
def Die.eqPy (self : Die) (other : PyValue) : Bool :=
  match other with
  | PyValue.die o => self.values == o.values
  | _ => false

/-! ## TableGenerator -/

/-- The win count of `_calculate_probability`:
`sum(1 for x in die1 for y in die2 if x > y)`. -/
def wins (die1 die2 : Die) : Nat :=
  (die1.values.map (fun x => die2.values.countP (fun y => decide (y < x)))).sum

/-- Decimal digit pair string for a value below 100 (zero-padded). -/
def twoDigits (n : Nat) : String :=
  (if n < 10 then "0" else "") ++ toString n

/-- Fixed-point rendering of the fraction `num / den` to two decimal
places, rounding half to even.  This models Python's
`f-string` `.2f` formatting of `wins / total` by exact rational rounding;
the Python code routes through an IEEE double, which agrees except on
pathological near-half cases, and no claim below depends on the numeric
content of these strings. -/
def formatRatio2 (num den : Nat) : String :=
  let scaled := num * 100
  let q := scaled / den
  let r := scaled % den
  let rounded :=
    if r * 2 < den then q
    else if den < r * 2 then q + 1
    else if q % 2 == 0 then q else q + 1
  toString (rounded / 100) ++ "." ++ twoDigits (rounded % 100)

/-- TableGenerator._calculate_probability: the win ratio of `die1` over
`die2`, formatted to two decimal places. -/
def calculate_probability (die1 die2 : Die) : String :=
  formatRatio2 (wins die1 die2) (die1.values.length * die2.values.length)

/-- TableGenerator.generate_table, as the table it prints: one row per
die, a `Die i` label cell followed by one entry per die; the diagonal
(`i == j`) is the literal string `"0.50"`, off-diagonal entries come from
`_calculate_probability`.  (The printed header line and the printing
itself are I/O and are not modelled.) -/
def generate_table (dice : List Die) : List (List String) :=
  dice.enum.map (fun p =>
    ("Die " ++ toString p.1) ::
      dice.enum.map (fun q =>
        if p.1 == q.1 then "0.50" else calculate_probability p.2 q.2))

/-- Win probability as an exact rational, as the spec defines it: ordered
pairs with the first face strictly greater, over all ordered pairs. -/
def winProbability (die1 die2 : Die) : ℚ :=
  (wins die1 die2 : ℚ) / ((die1.values.length : ℚ) * (die2.values.length : ℚ))

/-- Tie count: ordered pairs with equal faces (defined by the spec's
words — the code has no tie counter; it is the natural counterpart of
`wins` for the conservation property). -/
def ties (die1 die2 : Die) : Nat :=
  (die1.values.map (fun x => die2.values.countP (fun y => decide (y = x)))).sum

/-- Tie mass as an exact rational: equal-face pairs counted
proportionally. -/
def tieMass (die1 die2 : Die) : ℚ :=
  (ties die1 die2 : ℚ) / ((die1.values.length : ℚ) * (die2.values.length : ℚ))

/-! ## GameState -/

/-- GameState: the original dice, the mutable pool of still-available
dice, and the two parties' selections. -/
structure GameState where
  original_dice : List Die
  available_dice : List Die
  player_die : Option Die
  computer_die : Option Die
deriving Repr, DecidableEq

/-- GameState.__init__: the pool starts as a copy of the given dice, no
selections made. -/
def GameState.init (dice : List Die) : GameState :=
  ⟨dice, dice, none, none⟩

/-- GameState.select_die: remove the die from the pool if present
(Python `list.remove` removes the first occurrence under `__eq__`, i.e.
structural equality; the membership guard makes absence a no-op). -/
def GameState.select_die (s : GameState) (die : Die) : GameState :=
  if die ∈ s.available_dice then
    { s with available_dice := s.available_dice.erase die }
  else s

/-- GameState.reset: restore the pool to a copy of the original dice and
clear both selections. -/
def GameState.reset (s : GameState) : GameState :=
  { s with available_dice := s.original_dice, player_die := none, computer_die := none }

/-! ## GameController -/

/-- GameController._determine_first_player, after a valid guess token:
the computer commits to a number in `[0, 1]`, the player's validated
guess is compared with the revealed number.  Returns the outcome together
with the displayed digest and uppercased key string. -/
def determine_first_player (key : List Nat) (draw : Nat) (player_guess : Int) :
    Except String (Bool × String × String) :=
  (generate_fair_number key draw 1).map
    (fun r => (player_guess == r.1, r.2.2, bytesToHexUpper r.2.1))

/-- GameController._computer_select_die: raises when the pool is empty,
otherwise draws a uniform index into the pool, selects that die and
removes it from the pool. -/
def computer_select_die (s : GameState) (draw : Nat) : Except String (Die × GameState) :=
  let available := s.available_dice
  if available.isEmpty then Except.error "No dice available for selection"
  else
    (generate_uniform_random ((available.length : Int) - 1) draw).map
      (fun computer_choice =>
        let selected_die := available.getD computer_choice.toNat ⟨[]⟩
        (selected_die, s.select_die selected_die))

/-- GameController._make_throw, after a validated player number: the
computer commits to a number in `[0, len(die) - 1]`, the resolved index
is `(player_num + computer_num) % len(die)`, and the returned score is
the face at that index. -/
def make_throw (die : Die) (key : List Nat) (draw : Nat) (player_num : Nat) :
    Except String Int :=
  (generate_fair_number key draw ((die.values.length : Int) - 1)).map
    (fun r =>
      let result := ((player_num : Int) + r.1) % (die.values.length : Int)
      die.values.getD result.toNat 0)

/-! ## Theorems -/

/-- C3: Uniform draw contract.  A negative `max_value` raises, a
non-negative one returns a value in the closed range `[0, max_value]`,
and those are the only two behaviours. -/
theorem uniform_random_contract (max_value : Int) (draw : Nat) :
    (max_value < 0 →
      generate_uniform_random max_value draw = Except.error "max_value must be non-negative") ∧
    (0 ≤ max_value →
      ∃ r, generate_uniform_random max_value draw = Except.ok r ∧ 0 ≤ r ∧ r ≤ max_value) := by
  constructor
  · intro hneg
    simp [generate_uniform_random, hneg]
  · intro hpos
    have hne : ¬ max_value < 0 := not_lt.mpr hpos
    refine ⟨(draw : Int) % (max_value + 1), ?_, ?_, ?_⟩
    · simp [generate_uniform_random, hne]
    · exact Int.emod_nonneg _ (by omega)
    · have := Int.emod_lt_of_pos (draw : Int) (b := max_value + 1) (by omega)
      omega

/-- Concrete instantiation of `uniform_random_contract`: maximum `-1`
raises, maximum `5` with draw `12` stays in range. -/
theorem uniform_random_contract_witness :
    generate_uniform_random (-1) 6 = Except.error "max_value must be non-negative" ∧
    ∃ r, generate_uniform_random 5 12 = Except.ok r ∧ 0 ≤ r ∧ r ≤ 5 :=
  ⟨(uniform_random_contract (-1) 6).1 (by decide),
   (uniform_random_contract 5 12).2 (by decide)⟩

/-- C8: Die equality totality.  Comparing a Die with a non-Die value
returns `false` rather than raising, and two Dies compare equal exactly
when their face lists are equal element-by-element in order. -/
theorem die_eq_totality :
    (∀ (d : Die) (v : PyValue), (∀ d2 : Die, v ≠ PyValue.die d2) → Die.eqPy d v = false) ∧
    (∀ d1 d2 : Die, (Die.eqPy d1 (PyValue.die d2) = true ↔ d1.values = d2.values)) := by
  constructor
  · intro d v hv
    cases v with
    | die d2 => exact absurd rfl (hv d2)
    | int n => rfl
    | str s => rfl
    | list l => rfl
    | noneV => rfl
  · intro d1 d2
    simp [Die.eqPy]

/-- Concrete instantiation of `die_eq_totality`: an integer compares
unequal to a die, and structurally equal dice compare equal. -/
theorem die_eq_totality_witness :
    Die.eqPy ⟨[1, 2]⟩ (PyValue.int 3) = false ∧
    Die.eqPy ⟨[1, 2]⟩ (PyValue.die ⟨[1, 2]⟩) = true :=
  ⟨die_eq_totality.1 ⟨[1, 2]⟩ (PyValue.int 3) (fun _ h => by cases h),
   (die_eq_totality.2 ⟨[1, 2]⟩ ⟨[1, 2]⟩).mpr rfl⟩

/-- C1: Commitment soundness.  Whenever `generate_fair_number` returns a
triple, recomputing HMAC-SHA256 over the decimal string of the returned
number under the returned key yields exactly the returned digest. -/
theorem commitment_soundness (key : List Nat) (draw : Nat) (max_value : Int)
    (number : Int) (k : List Nat) (digest : String)
    (h : generate_fair_number key draw max_value = Except.ok (number, k, digest)) :
    hmacSha256Hex k (strBytes (toString number)) = digest := by
  by_cases hneg : max_value < 0
  · simp [generate_fair_number, generate_uniform_random, hneg, Except.map] at h
  · simp [generate_fair_number, generate_uniform_random, hneg, Except.map] at h
    obtain ⟨h1, h2, h3⟩ := h
    subst h1
    subst h2
    subst h3
    rfl

set_option maxRecDepth 100000 in
/-- Concrete instantiation of `commitment_soundness`: a commitment over
`[0, 5]` from a zero key and draw `7` commits to `1`, and the recomputed
HMAC-SHA256 digest is exactly the committed hex string. -/
theorem commitment_soundness_witness :
    hmacSha256Hex (List.replicate 16 0) (strBytes (toString (1 : Int))) =
      "41e0a9448f91edba4b05c6c2fc0edb1d6418aa292b5b2942637bec43a29b9523" :=
  commitment_soundness (List.replicate 16 0) 7 5 1 (List.replicate 16 0)
    "41e0a9448f91edba4b05c6c2fc0edb1d6418aa292b5b2942637bec43a29b9523" (by rfl)

/-- C2: Throw resolution.  For a die of length `n ≥ 1`, committed draw
`draw` (engine value `draw % n ∈ [0, n-1]`) and validated contributed
value `c < n`, the resolved index is `(c + e) % n` and the score is the
face at that index; for a single-face die that index is `0`, so the only
possible score is the unique face. -/
theorem throw_resolution (die : Die) (key : List Nat) (draw c : Nat)
    (h1 : 0 < die.values.length) (h2 : c < die.values.length) :
    make_throw die key draw c =
      Except.ok (die.values.getD ((c + draw % die.values.length) % die.values.length) 0) ∧
    (die.values.length = 1 →
      die.values.getD ((c + draw % die.values.length) % die.values.length) 0 =
        die.values.getD 0 0) := by
  constructor
  · have hneg : ¬ ((die.values.length : Int) - 1 < 0) := by omega
    simp only [make_throw, generate_fair_number, generate_uniform_random, hneg, if_false,
      Except.map]
    have hlen : ((die.values.length : Int) - 1 + 1) = (die.values.length : Int) := by ring
    rw [hlen]
    norm_cast
  · intro h
    rw [h]
    simp [Nat.mod_one]

/-- Concrete instantiation of `throw_resolution`: the spec example
`n = 6, e = 4, c = 3` resolves to index `1` and scores the face at
position `1`; a single-face die always scores its unique face. -/
theorem throw_resolution_witness :
    make_throw ⟨[10, 20, 30, 40, 50, 60]⟩ (List.replicate 16 0) 4 3 = Except.ok 20 ∧
    make_throw ⟨[5]⟩ (List.replicate 16 0) 9 0 = Except.ok 5 :=
  ⟨(throw_resolution ⟨[10, 20, 30, 40, 50, 60]⟩ (List.replicate 16 0) 4 3
      (by decide) (by decide)).1,
   (throw_resolution ⟨[5]⟩ (List.replicate 16 0) 9 0 (by decide) (by decide)).1⟩

/-- C9: Computer selection on an empty pool raises instead of drawing;
on a non-empty pool it returns a die drawn from the pool and removes it
(the pool shrinks by one). -/
theorem computer_select_contract (s : GameState) (draw : Nat) :
    (s.available_dice = [] →
      computer_select_die s draw = Except.error "No dice available for selection") ∧
    (s.available_dice ≠ [] →
      ∃ d s2, computer_select_die s draw = Except.ok (d, s2) ∧
        d ∈ s.available_dice ∧
        s2.available_dice = s.available_dice.erase d ∧
        s2.available_dice.length + 1 = s.available_dice.length) := by
  constructor
  · intro h
    simp [computer_select_die, h]
  · intro h
    have hlen : 0 < s.available_dice.length := List.length_pos.mpr h
    have hemp : s.available_dice.isEmpty = false := by
      simpa [List.isEmpty_iff] using h
    have hneg : ¬ ((s.available_dice.length : Int) - 1 < 0) := by omega
    have hmod : ((draw : Int) % ((s.available_dice.length : Int) - 1 + 1)).toNat =
        draw % s.available_dice.length := by
      have h2 : ((s.available_dice.length : Int) - 1 + 1) = (s.available_dice.length : Int) := by
        ring
      rw [h2]
      norm_cast
    have hd : draw % s.available_dice.length < s.available_dice.length := Nat.mod_lt _ hlen
    have hdmem : s.available_dice.getD (draw % s.available_dice.length) ⟨[]⟩ ∈
        s.available_dice := by
      rw [List.getD_eq_getElem _ _ hd]
      exact List.getElem_mem hd
    refine ⟨s.available_dice.getD (draw % s.available_dice.length) ⟨[]⟩,
      s.select_die (s.available_dice.getD (draw % s.available_dice.length) ⟨[]⟩),
      ?_, hdmem, ?_, ?_⟩
    · simp only [computer_select_die, generate_uniform_random, hemp, Bool.false_eq_true,
        if_false, hneg, Except.map, hmod]
    · simp only [GameState.select_die, if_pos hdmem]
    · have hpos : 0 < s.available_dice.length := hlen
      simp only [GameState.select_die, if_pos hdmem, List.length_erase_of_mem hdmem]
      omega

/-- Concrete instantiation of `computer_select_contract`: an empty pool
raises, a three-die pool with draw `5` yields a die and shrinks the
pool. -/
theorem computer_select_contract_witness :
    computer_select_die ⟨[], [], none, none⟩ 5 =
      Except.error "No dice available for selection" ∧
    ∃ d s2, computer_select_die (GameState.init [⟨[1]⟩, ⟨[2]⟩, ⟨[3]⟩]) 5 =
        Except.ok (d, s2) ∧
      d ∈ (GameState.init [⟨[1]⟩, ⟨[2]⟩, ⟨[3]⟩]).available_dice ∧
      s2.available_dice = (GameState.init [⟨[1]⟩, ⟨[2]⟩, ⟨[3]⟩]).available_dice.erase d ∧
      s2.available_dice.length + 1 =
        (GameState.init [⟨[1]⟩, ⟨[2]⟩, ⟨[3]⟩]).available_dice.length :=
  ⟨(computer_select_contract ⟨[], [], none, none⟩ 5).1 rfl,
   (computer_select_contract (GameState.init [⟨[1]⟩, ⟨[2]⟩, ⟨[3]⟩]) 5).2 (by decide)⟩

/-- C10: Single-occurrence removal.  When the pool contains `d`,
`select_die` removes exactly the first structurally-equal occurrence:
the pool splits as `l1 ++ d :: l2` with `d ∉ l1`, becomes `l1 ++ l2`
(everything else in place, duplicates in `l2` kept), and its length
drops by exactly one. -/
theorem select_die_first_occurrence (s : GameState) (d : Die)
    (h : d ∈ s.available_dice) :
    ∃ l1 l2, d ∉ l1 ∧ s.available_dice = l1 ++ d :: l2 ∧
      (s.select_die d).available_dice = l1 ++ l2 ∧
      (s.select_die d).available_dice.length + 1 = s.available_dice.length := by
  obtain ⟨l1, l2, hn, he, her⟩ := List.exists_erase_eq h
  refine ⟨l1, l2, hn, he, ?_, ?_⟩
  · simp [GameState.select_die, h, her]
  · have hpos : 0 < s.available_dice.length :=
      List.length_pos.mpr (List.ne_nil_of_mem h)
    simp only [GameState.select_die, if_pos h, List.length_erase_of_mem h]
    omega

/-- Concrete instantiation of `select_die_first_occurrence` on a pool
with a duplicate of the selected die. -/
theorem select_die_first_occurrence_witness :
    ∃ l1 l2, (⟨[1]⟩ : Die) ∉ l1 ∧
      (GameState.init [⟨[1]⟩, ⟨[2]⟩, ⟨[1]⟩]).available_dice = l1 ++ (⟨[1]⟩ : Die) :: l2 ∧
      ((GameState.init [⟨[1]⟩, ⟨[2]⟩, ⟨[1]⟩]).select_die ⟨[1]⟩).available_dice = l1 ++ l2 ∧
      ((GameState.init [⟨[1]⟩, ⟨[2]⟩, ⟨[1]⟩]).select_die ⟨[1]⟩).available_dice.length + 1 =
        (GameState.init [⟨[1]⟩, ⟨[2]⟩, ⟨[1]⟩]).available_dice.length :=
  select_die_first_occurrence (GameState.init [⟨[1]⟩, ⟨[2]⟩, ⟨[1]⟩]) ⟨[1]⟩ (by decide)

/-- C4 counterexample: with a pool holding two dice structurally equal
to `d`, `select_die d` removes only the first occurrence, so `d` is
still present afterwards — refuting the claim that `d` is absent from
`availableDice` after every `selectDie(d)`. -/
theorem select_die_absence_counterexample :
    (⟨[1]⟩ : Die) ∈
      ((GameState.init [⟨[1]⟩, ⟨[1]⟩, ⟨[2]⟩]).select_die ⟨[1]⟩).available_dice := by
  decide

/-- C4 (amended): `select_die d` removes the first occurrence of `d`, so
`d` is absent afterwards whenever the pool held at most one occurrence;
selection of an absent die is a no-op, not an error; and `reset`
restores the pool to the original dice in original order and clears
both party selections. -/
theorem select_die_reset_contract (s : GameState) (d : Die) :
    (List.count d s.available_dice ≤ 1 → d ∉ (s.select_die d).available_dice) ∧
    (d ∉ s.available_dice → s.select_die d = s) ∧
    (s.reset.available_dice = s.original_dice ∧
      s.reset.player_die = none ∧ s.reset.computer_die = none) := by
  refine ⟨?_, ?_, rfl, rfl, rfl⟩
  · intro hc
    by_cases hm : d ∈ s.available_dice
    · simp only [GameState.select_die, if_pos hm]
      rw [← List.count_eq_zero, List.count_erase_self]
      have h1 : 0 < List.count d s.available_dice := List.count_pos_iff.mpr hm
      omega
    · simp [GameState.select_die, hm]
  · intro hm
    simp [GameState.select_die, hm]

/-- Concrete instantiation of `select_die_reset_contract`: a duplicate-free
pool loses its copy of the selected die, selecting an absent die changes
nothing, and reset restores the original pool. -/
theorem select_die_reset_contract_witness :
    (⟨[1]⟩ : Die) ∉
      ((GameState.init [⟨[1]⟩, ⟨[2]⟩]).select_die ⟨[1]⟩).available_dice ∧
    (GameState.init [⟨[1]⟩, ⟨[2]⟩]).select_die ⟨[3]⟩ = GameState.init [⟨[1]⟩, ⟨[2]⟩] ∧
    (GameState.init [⟨[1]⟩, ⟨[2]⟩]).reset.available_dice =
      (GameState.init [⟨[1]⟩, ⟨[2]⟩]).original_dice :=
  ⟨(select_die_reset_contract (GameState.init [⟨[1]⟩, ⟨[2]⟩]) ⟨[1]⟩).1 (by decide),
   (select_die_reset_contract (GameState.init [⟨[1]⟩, ⟨[2]⟩]) ⟨[3]⟩).2.1 (by decide),
   (select_die_reset_contract (GameState.init [⟨[1]⟩, ⟨[2]⟩]) ⟨[1]⟩).2.2.1⟩

/-- Sums of pointwise-added maps split. -/
lemma sum_map_add {α : Type} (l : List α) (f g : α → Nat) :
    (l.map (fun x => f x + g x)).sum = (l.map f).sum + (l.map g).sum := by
  induction l with
  | nil => simp
  | cons a l ih => simp [ih]; omega

/-- A sum of indicator values is a count. -/
lemma sum_map_ite_count {α : Type} (l : List α) (p : α → Bool) :
    (l.map (fun x => if p x then 1 else 0)).sum = l.countP p := by
  induction l with
  | nil => simp
  | cons a l ih =>
      simp only [List.map_cons, List.sum_cons, List.countP_cons, ih]
      by_cases h : p a <;> simp [h] <;> omega

/-- A constant sum over a list is length times the constant. -/
lemma sum_map_const {α : Type} (l : List α) (c : Nat) :
    (l.map (fun _ => c)).sum = l.length * c := by
  induction l with
  | nil => simp
  | cons a l ih => simp [ih, Nat.succ_mul]; omega

/-- Exchanging the order of a double count over two lists. -/
lemma sum_countP_comm (A B : List Int) (p : Int → Int → Bool) :
    (B.map (fun y => A.countP (fun x => p x y))).sum =
      (A.map (fun x => B.countP (fun y => p x y))).sum := by
  induction A with
  | nil => simp
  | cons a A ih =>
      simp only [List.countP_cons, List.map_cons, List.sum_cons]
      rw [sum_map_add B (fun y => A.countP (fun x => p x y)) (fun y => if p a y then 1 else 0),
        ih, sum_map_ite_count]
      have he : B.countP (p a) = B.countP (fun y => p a y) := rfl
      rw [he]
      omega

/-- Per-element trichotomy of counts: below, above and equal partition
the compared list. -/
lemma countP_trichotomy (x : Int) (B : List Int) :
    B.countP (fun y => decide (y < x)) + B.countP (fun y => decide (x < y)) +
      B.countP (fun y => decide (y = x)) = B.length := by
  induction B with
  | nil => simp
  | cons b B ih =>
      simp only [List.countP_cons, List.length_cons]
      rcases lt_trichotomy b x with h | h | h
      · have h1 : ¬ x < b := by omega
        have h2 : ¬ b = x := by omega
        simp [h, h1, h2]
        omega
      · have h1 : ¬ b < x := by omega
        have h2 : ¬ x < b := by omega
        simp [h, h1, h2]
        omega
      · have h1 : ¬ b < x := by omega
        have h2 : ¬ b = x := by omega
        simp [h, h1, h2]
        omega

/-- The win counts in both directions and the tie count partition all
ordered face pairs. -/
lemma wins_ties_partition (A B : Die) :
    wins A B + wins B A + ties A B = A.values.length * B.values.length := by
  unfold wins ties
  rw [sum_countP_comm A.values B.values (fun x y => decide (x < y))]
  rw [← sum_map_add, ← sum_map_add]
  have hpt : ∀ x : Int,
      B.values.countP (fun y => decide (y < x)) + B.values.countP (fun y => decide (x < y)) +
        B.values.countP (fun y => decide (y = x)) = B.values.length :=
    fun x => countP_trichotomy x B.values
  calc (A.values.map (fun x =>
          B.values.countP (fun y => decide (y < x)) + B.values.countP (fun y => decide (x < y)) +
            B.values.countP (fun y => decide (y = x)))).sum
      = (A.values.map (fun _ => B.values.length)).sum := by
        apply congrArg
        exact List.map_congr_left (fun x _ => hpt x)
    _ = A.values.length * B.values.length := sum_map_const A.values B.values.length

/-- C5: Probability mass conservation.  For dice with at least one face
each, the exact win probabilities in both directions plus the tie mass
sum to exactly 1. -/
theorem probability_mass_conservation (A B : Die)
    (hA : 0 < A.values.length) (hB : 0 < B.values.length) :
    winProbability A B + winProbability B A + tieMass A B = 1 := by
  unfold winProbability tieMass
  have key := wins_ties_partition A B
  have hA0 : ((A.values.length : ℚ)) ≠ 0 := by positivity
  have hB0 : ((B.values.length : ℚ)) ≠ 0 := by positivity
  have hd : ((A.values.length : ℚ) * (B.values.length : ℚ)) ≠ 0 := mul_ne_zero hA0 hB0
  rw [mul_comm ((B.values.length : ℚ)) ((A.values.length : ℚ))]
  rw [div_add_div_same, div_add_div_same, div_eq_one_iff_eq hd]
  exact_mod_cast key

/-- Concrete instantiation of `probability_mass_conservation` on the
dice `[1, 2]` and `[2, 3]`. -/
theorem probability_mass_conservation_witness :
    winProbability ⟨[1, 2]⟩ ⟨[2, 3]⟩ + winProbability ⟨[2, 3]⟩ ⟨[1, 2]⟩ +
      tieMass ⟨[1, 2]⟩ ⟨[2, 3]⟩ = 1 :=
  probability_mass_conservation ⟨[1, 2]⟩ ⟨[2, 3]⟩ (by decide) (by decide)

/-- C6: Self-comparison convention.  Every diagonal entry of the
probability table (the data cell of row `i` comparing die `i` against
itself, at position `i + 1` after the row label) is the literal string
`"0.50"`, whatever the die's faces; and it comes from the `i == j`
special case, not from `_calculate_probability`, which on the die `[1]`
would render `"0.00"` instead. -/
theorem table_self_comparison (dice : List Die) (i : Nat) (h : i < dice.length) :
    ((generate_table dice).getD i []).getD (i + 1) "" = "0.50" ∧
    calculate_probability ⟨[1]⟩ ⟨[1]⟩ ≠ "0.50" := by
  constructor
  · simp [generate_table, List.getD_eq_getElem?_getD, List.getElem?_map, List.getElem?_enum,
      List.getElem?_eq_getElem h]
  · decide

/-- Concrete instantiation of `table_self_comparison` on the spec's
three-dice example, middle row. -/
theorem table_self_comparison_witness :
    ((generate_table [⟨[2, 2, 4, 4, 9, 9]⟩, ⟨[1, 1, 6, 6, 8, 8]⟩,
        ⟨[3, 3, 5, 5, 7, 7]⟩]).getD 1 []).getD 2 "" = "0.50" ∧
    calculate_probability ⟨[1]⟩ ⟨[1]⟩ ≠ "0.50" :=
  table_self_comparison
    [⟨[2, 2, 4, 4, 9, 9]⟩, ⟨[1, 1, 6, 6, 8, 8]⟩, ⟨[3, 3, 5, 5, 7, 7]⟩] 1 (by decide)

/-- Each `beBytes k` serialization has exactly `k` bytes. -/
lemma beBytes_length (k : Nat) : ∀ n, (beBytes k n).length = k := by
  induction k with
  | zero => intro n; rfl
  | succ k ih => intro n; simp [beBytes, ih]

/-- A SHA-256 digest has exactly 32 bytes. -/
lemma sha256_length (msg : List Nat) : (sha256 msg).length = 32 := by
  simp [sha256, stateBytes, beBytes_length]

/-- An HMAC-SHA256 digest has exactly 32 bytes. -/
lemma hmacSha256_length (key msg : List Nat) : (hmacSha256 key msg).length = 32 :=
  sha256_length _

/-- Every lowercase hex character is one of the sixteen lowercase
digits. -/
lemma hexCharLower_mem (n : Nat) : hexCharLower n ∈ hexDigitsLower := by
  unfold hexCharLower
  rcases Nat.lt_or_ge n hexDigitsLower.length with h | h
  · rw [List.getD_eq_getElem _ _ h]
    exact List.getElem_mem h
  · rw [List.getD_eq_default _ _ h]
    decide

/-- Every uppercase hex character is one of the sixteen uppercase
digits. -/
lemma hexCharUpper_mem (n : Nat) : hexCharUpper n ∈ hexDigitsUpper := by
  unfold hexCharUpper
  rcases Nat.lt_or_ge n hexDigitsUpper.length with h | h
  · rw [List.getD_eq_getElem _ _ h]
    exact List.getElem_mem h
  · rw [List.getD_eq_default _ _ h]
    decide

/-- The lowercase hex encoding has two characters per byte. -/
lemma bytesToHexLower_length (bs : List Nat) : (bytesToHexLower bs).length = 2 * bs.length := by
  show ((bs.map (fun b => [hexCharLower (b / 16 % 16), hexCharLower (b % 16)])).flatten).length =
    2 * bs.length
  induction bs with
  | nil => rfl
  | cons b bs ih =>
      simp only [List.map_cons, List.flatten_cons, List.length_append, ih, List.length_cons]
      simp
      omega

/-- The uppercase hex encoding has two characters per byte. -/
lemma bytesToHexUpper_length (bs : List Nat) : (bytesToHexUpper bs).length = 2 * bs.length := by
  show ((bs.map (fun b => [hexCharUpper (b / 16 % 16), hexCharUpper (b % 16)])).flatten).length =
    2 * bs.length
  induction bs with
  | nil => rfl
  | cons b bs ih =>
      simp only [List.map_cons, List.flatten_cons, List.length_append, ih, List.length_cons]
      simp
      omega

/-- Every character of the lowercase hex encoding is a lowercase hex
digit. -/
lemma bytesToHexLower_chars (bs : List Nat) :
    ∀ c ∈ (bytesToHexLower bs).data, c ∈ hexDigitsLower := by
  intro c hc
  have hc2 : c ∈ (bs.map (fun b => [hexCharLower (b / 16 % 16), hexCharLower (b % 16)])).flatten :=
    hc
  rw [List.mem_flatten] at hc2
  obtain ⟨l, hl, hcl⟩ := hc2
  rw [List.mem_map] at hl
  obtain ⟨b, _, rfl⟩ := hl
  simp only [List.mem_cons, List.not_mem_nil, or_false] at hcl
  rcases hcl with rfl | rfl
  · exact hexCharLower_mem _
  · exact hexCharLower_mem _

/-- Every character of the uppercase hex encoding is an uppercase hex
digit. -/
lemma bytesToHexUpper_chars (bs : List Nat) :
    ∀ c ∈ (bytesToHexUpper bs).data, c ∈ hexDigitsUpper := by
  intro c hc
  have hc2 : c ∈ (bs.map (fun b => [hexCharUpper (b / 16 % 16), hexCharUpper (b % 16)])).flatten :=
    hc
  rw [List.mem_flatten] at hc2
  obtain ⟨l, hl, hcl⟩ := hc2
  rw [List.mem_map] at hl
  obtain ⟨b, _, rfl⟩ := hl
  simp only [List.mem_cons, List.not_mem_nil, or_false] at hcl
  rcases hcl with rfl | rfl
  · exact hexCharUpper_mem _
  · exact hexCharUpper_mem _

set_option maxRecDepth 100000 in
/-- C7 counterexample: the digest disclosed at commit time is the
`hexdigest()` string, which is lowercase hexadecimal — on the concrete
commitment with a 16-zero-byte key over the number `1`, its characters
are not all uppercase hex digits, so it is not an uppercase hexadecimal
encoding. -/
theorem wire_format_counterexample :
    ¬ ∀ c ∈ (hmacSha256Hex (List.replicate 16 0) (strBytes "1")).data,
        c ∈ hexDigitsUpper := by
  decide

/-- C7 (amended): the digest string disclosed at commit time is a
64-character lowercase hexadecimal encoding of the 256-bit keyed hash,
and the key string disclosed at reveal time (`key.hex().upper()`) is an
uppercase hexadecimal encoding, two characters per key byte. -/
theorem wire_format (key msg : List Nat) :
    (hmacSha256Hex key msg).length = 64 ∧
    (∀ c ∈ (hmacSha256Hex key msg).data, c ∈ hexDigitsLower) ∧
    (bytesToHexUpper key).length = 2 * key.length ∧
    (∀ c ∈ (bytesToHexUpper key).data, c ∈ hexDigitsUpper) := by
  refine ⟨?_, bytesToHexLower_chars _, bytesToHexUpper_length key, bytesToHexUpper_chars key⟩
  show (bytesToHexLower (hmacSha256 key msg)).length = 64
  rw [bytesToHexLower_length, hmacSha256_length]

set_option maxRecDepth 100000 in
/-- Concrete instantiation of `wire_format` on the zero key and the
message `"1"`. -/
theorem wire_format_witness :
    (hmacSha256Hex (List.replicate 16 0) (strBytes "1")).length = 64 ∧
    '4' ∈ hexDigitsLower ∧
    (bytesToHexUpper (List.replicate 16 0)).length = 32 :=
  ⟨(wire_format (List.replicate 16 0) (strBytes "1")).1,
   (wire_format (List.replicate 16 0) (strBytes "1")).2.1 '4' (by decide),
   (wire_format (List.replicate 16 0) (strBytes "1")).2.2.1⟩

end Task3
